import Mathlib

/-!
Verification of the cryojax scattering/projection core.

This file gives a shallow embedding of `src/cryojax/simulator/scattering.py`
together with the voxel-grid construction exercised by
`tests/test_voxels_from_atoms.py`, and proves the specified properties of
that code.  Scalars that the Python code handles as floats are embedded as
`ℚ` where the code only does arithmetic and comparisons (shapes, indices,
masks), and as `ℝ`/`ℂ` where transcendental kernels (Gaussians, Fourier
transforms) are involved.
-/

open scoped BigOperators

/-! ## ImageConfig (`scattering.py`, lines 38-119) -/

/-- Python `int()` applied to a rational scalar: truncation toward zero.
This is the conversion used in `ImageConfig.__post_init__` (line 89):
`int(s * self.pad_scale)`. -/
def pyInt (q : ℚ) : ℤ :=
  if 0 ≤ q then ⌊q⌋ else -⌊-q⌋

/-- `padded_shape = tuple([int(s * self.pad_scale) for s in self.shape])`
(`ImageConfig.__post_init__`, line 89). -/
def paddedShapeOf (shape : ℕ × ℕ) (padScale : ℚ) : ℕ × ℕ :=
  ((pyInt ((shape.1 : ℚ) * padScale)).toNat, (pyInt ((shape.2 : ℚ) * padScale)).toNat)

/-- The state of a constructed `ImageConfig`: the primary fields together
with the derived `padded_shape`.  (The four cached coordinate grids are pure
functions of these fields and are not needed by the claims.) -/
structure ImageConfig where
  shape : ℕ × ℕ
  pixelSize : ℚ
  padScale : ℚ
  paddedShape : ℕ × ℕ

/-- Construction of an `ImageConfig`, mirroring `__post_init__`
(lines 87-103): the padded shape is derived by truncation; no validation of
`pad_scale` is performed and no error can be raised. -/
def mkImageConfig (shape : ℕ × ℕ) (pixelSize : ℚ) (padScale : ℚ) : ImageConfig :=
  { shape := shape
    pixelSize := pixelSize
    padScale := padScale
    paddedShape := paddedShapeOf shape padScale }

/-- Rounding to the nearest integer (ties upward), the reading of
`round(shape * pad_scale)` in the specification's invariant. -/
def roundNearest (q : ℚ) : ℤ := ⌊q + 1/2⌋

/-! ## Centered crop / pad and Fourier-domain resampling

Modelled from the spec: the library primitives `crop`, `pad` and `resize`
(`cryojax.utils`) are not part of the sources; per section 4.3 `crop`
restricts an image to a target shape, centered; `pad` embeds it centered
into a larger shape with a caller-selected fill; `downsample`/`upsample`
resize via frequency-domain truncation / zero-padding of the centered
spectrum.  Images are embedded as functions `ℕ → ℕ → ℝ` with their shape
tracked separately; only indices below the shape are meaningful. -/

/-- Modelled from the spec: centered crop of a 2D image of shape `M`
down to shape `N` (`cryojax.utils.crop`, used by `ImageConfig.crop`). -/
def cropImage (M N : ℕ × ℕ) (img : ℕ → ℕ → ℝ) : ℕ → ℕ → ℝ :=
  fun i j => img ((M.1 - N.1) / 2 + i) ((M.2 - N.2) / 2 + j)

/-- Modelled from the spec: centered pad of a 2D image of shape `N` up to
shape `M`, filling with `fill` (`cryojax.utils.pad`, used by
`ImageConfig.pad`). -/
def padImage (N M : ℕ × ℕ) (fill : ℝ) (img : ℕ → ℕ → ℝ) : ℕ → ℕ → ℝ :=
  fun i j =>
    if (M.1 - N.1) / 2 ≤ i ∧ i < (M.1 - N.1) / 2 + N.1 ∧
       (M.2 - N.2) / 2 ≤ j ∧ j < (M.2 - N.2) / 2 + N.2 then
      img (i - (M.1 - N.1) / 2) (j - (M.2 - N.2) / 2)
    else fill

/-- `ImageConfig.crop` (line 105): crop a padded-plane image to `shape`. -/
def ImageConfig.crop (c : ImageConfig) (img : ℕ → ℕ → ℝ) : ℕ → ℕ → ℝ :=
  cropImage c.paddedShape c.shape img

/-- `ImageConfig.pad` (line 109): pad a nominal-plane image to
`padded_shape`. -/
def ImageConfig.pad (c : ImageConfig) (fill : ℝ) (img : ℕ → ℕ → ℝ) : ℕ → ℕ → ℝ :=
  padImage c.shape c.paddedShape fill img

/-- `ImageConfig.downsample` (line 113): resize to `shape` in Fourier
space, i.e. centered truncation of the spectrum (no anti-aliasing). -/
def ImageConfig.downsample (c : ImageConfig) (img : ℕ → ℕ → ℝ) : ℕ → ℕ → ℝ :=
  cropImage c.paddedShape c.shape img

/-- `ImageConfig.upsample` (line 117): resize to `padded_shape` in Fourier
space, i.e. centered zero-padding of the spectrum. -/
def ImageConfig.upsample (c : ImageConfig) (img : ℕ → ℕ → ℝ) : ℕ → ℕ → ℝ :=
  padImage c.shape c.paddedShape 0 img

/-! ## `project_with_binning` (`scattering.py`, lines 338-376) -/

/-- `jnp.rint`: round half to even (IEEE round-to-nearest-even), on exact
rationals. -/
def rint (q : ℚ) : ℤ :=
  if q - ⌊q⌋ < 1/2 then ⌊q⌋
  else if 1/2 < q - ⌊q⌋ then ⌊q⌋ + 1
  else if 2 ∣ ⌊q⌋ then ⌊q⌋ else ⌊q⌋ + 1

/-- Clipping of an integer index into `[0, n-1]`, the effect of
`mode="clip"` in `jnp.ravel_multi_index` (negative indices go to `0`,
overlarge ones to `n - 1`). -/
def clipIndex (z : ℤ) (n : ℕ) : ℕ := min z.toNat (n - 1)

/-- The pixel a point is binned into by `project_with_binning`: the first
two coordinates are rounded half-to-even (`jnp.rint`, line 362), shifted
from centered to corner-origin indexing by `N1 // 2` and `N2 // 2`
(lines 364-367), and clipped to the image bounds (line 370). -/
def binPixel (N1 N2 : ℕ) (c : ℚ × ℚ × ℚ) : ℕ × ℕ :=
  (clipIndex (rint c.1 + (N1 / 2 : ℕ)) N1, clipIndex (rint c.2.1 + (N2 / 2 : ℕ)) N2)

/-- `jnp.bincount(flat_coords, weights=density, length=len)`: sequential
accumulation of weights into flat bins; indices at or beyond `len` are
dropped. -/
def bincount (len : ℕ) : List (ℕ × ℝ) → (ℕ → ℝ)
  | [] => fun _ => 0
  | (k, w) :: rest => fun m => (if m = k ∧ k < len then w else 0) + bincount len rest m

/-- `project_with_binning(density, coords, shape)` (lines 338-376): rounds
coordinates, shifts to corner-origin, flattens row-major with clipping and
accumulates a weighted histogram, reshaped to `(N1, N2)`. -/
def project_with_binning (density : List ℝ) (coords : List (ℚ × ℚ × ℚ))
    (shape : ℕ × ℕ) : ℕ → ℕ → ℝ :=
  fun i j =>
    bincount (shape.1 * shape.2)
      ((coords.zip density).map
        (fun pc =>
          ((binPixel shape.1 shape.2 pc.1).1 * shape.2 + (binPixel shape.1 shape.2 pc.1).2,
            pc.2)))
      (i * shape.2 + j)

/-- The per-pixel characterization of binning: the sum of the density
values of all points whose binned pixel is `px`. -/
def binnedSum (density : List ℝ) (coords : List (ℚ × ℚ × ℚ)) (N1 N2 : ℕ)
    (px : ℕ × ℕ) : ℝ :=
  ((coords.zip density).map
    (fun pc => if binPixel N1 N2 pc.1 = px then pc.2 else 0)).sum

/-! ## Density Builder

Modelled from the spec: `build_real_space_voxels_from_atoms` is exercised by
`tests/test_voxels_from_atoms.py` but its body is not among the sources.
Per section 4.1 every atom contributes a five-Gaussian form factor
`a_k * (4π/b_k)^(3/2) * exp(-4π² |r - pos|² / b_k)`; the overall amplitude
normalization carries an additional factor `4π`, fixed by the in-repo tests
`test_integral_is_correct` (integral `= Σ a · 4π`) and
`test_fourier_transform` (zero-frequency value `= Σ a · 4π / voxel_size³`).
-/

open Real in
/-- Modelled from the spec: the real-space density field of an atom cloud
(section 4.1); `pos i` is atom `i`'s position, `a i`/`b i` its five
Gaussian amplitude/width coefficients. -/
noncomputable def atomDensity (N : ℕ) (pos : Fin N → ℝ × ℝ × ℝ)
    (a b : Fin N → Fin 5 → ℝ) (r : ℝ × ℝ × ℝ) : ℝ :=
  ∑ i, ∑ k,
    4 * π * a i k * Real.sqrt (4 * π / b i k) ^ 3 *
      Real.exp (-(4 * π ^ 2 / b i k) *
        ((r.1 - (pos i).1) ^ 2 + (r.2.1 - (pos i).2.1) ^ 2 + (r.2.2 - (pos i).2.2) ^ 2))

/-- The real-space coordinate of grid index `i` on a centered cubic
coordinate grid with `n + 1` voxels per side and voxel size `v`
(`CoordinateGrid`): index `(n+1)/2` sits at the origin. -/
def gridCoord (n : ℕ) (v : ℝ) (i : ZMod (n + 1)) : ℝ :=
  ((i.val : ℝ) - (((n + 1) / 2 : ℕ) : ℝ)) * v

/-- Modelled from the spec: `build_real_space_voxels_from_atoms` — the atom
density sampled on the centered cubic coordinate grid. -/
noncomputable def build_real_space_voxels_from_atoms (n N : ℕ)
    (pos : Fin N → ℝ × ℝ × ℝ) (a b : Fin N → Fin 5 → ℝ) (v : ℝ) :
    ZMod (n + 1) → ZMod (n + 1) → ZMod (n + 1) → ℝ :=
  fun x y z => atomDensity N pos a b (gridCoord n v x, gridCoord n v y, gridCoord n v z)

/-! ## FFT bookkeeping on cubic grids

Modelled from the spec: the FFT helpers are library primitives
(section 1).  `jnp.fft.fftshift` rolls every axis by `n // 2` and
`jnp.fft.ifftshift` rolls it back; `jnp.fft.fftn`/`jnp.fft.ifftn` are the
unnormalized forward / `1/n`-normalized inverse discrete Fourier
transforms, embedded per axis as `ZMod.dft` and its inverse (which use
exactly the numpy kernel `exp(-2πi j k / n)`).  Per section 3, the
repository's own `ifftn` helper shifts the real-space origin back to the
grid center after the inverse transform. -/

/-- The roll offset of `fftshift`/`ifftshift` on an axis of length
`n + 1`, namely `(n + 1) // 2` as a cyclic index. -/
def shiftC (n : ℕ) : ZMod (n + 1) := (((n + 1) / 2 : ℕ) : ZMod (n + 1))

/-- `jnp.fft.fftshift` on all three axes of a cubic grid:
`out[i] = in[i - n//2]` cyclically. -/
def fftshift3 (n : ℕ) (g : ZMod (n + 1) → ZMod (n + 1) → ZMod (n + 1) → ℂ) :
    ZMod (n + 1) → ZMod (n + 1) → ZMod (n + 1) → ℂ :=
  fun x y z => g (x - shiftC n) (y - shiftC n) (z - shiftC n)

/-- `jnp.fft.ifftshift` on all three axes: `out[i] = in[i + n//2]`
cyclically. -/
def ifftshift3 (n : ℕ) (g : ZMod (n + 1) → ZMod (n + 1) → ZMod (n + 1) → ℂ) :
    ZMod (n + 1) → ZMod (n + 1) → ZMod (n + 1) → ℂ :=
  fun x y z => g (x + shiftC n) (y + shiftC n) (z + shiftC n)

/-- Forward DFT along the first axis. -/
noncomputable def fftAxis1 (n : ℕ)
    (g : ZMod (n + 1) → ZMod (n + 1) → ZMod (n + 1) → ℂ) :
    ZMod (n + 1) → ZMod (n + 1) → ZMod (n + 1) → ℂ :=
  fun x y z => ZMod.dft (fun j => g j y z) x

/-- Forward DFT along the second axis. -/
noncomputable def fftAxis2 (n : ℕ)
    (g : ZMod (n + 1) → ZMod (n + 1) → ZMod (n + 1) → ℂ) :
    ZMod (n + 1) → ZMod (n + 1) → ZMod (n + 1) → ℂ :=
  fun x y z => ZMod.dft (fun j => g x j z) y

/-- Forward DFT along the third axis. -/
noncomputable def fftAxis3 (n : ℕ)
    (g : ZMod (n + 1) → ZMod (n + 1) → ZMod (n + 1) → ℂ) :
    ZMod (n + 1) → ZMod (n + 1) → ZMod (n + 1) → ℂ :=
  fun x y z => ZMod.dft (fun j => g x y j) z

/-- Inverse DFT along the first axis. -/
noncomputable def ifftAxis1 (n : ℕ)
    (g : ZMod (n + 1) → ZMod (n + 1) → ZMod (n + 1) → ℂ) :
    ZMod (n + 1) → ZMod (n + 1) → ZMod (n + 1) → ℂ :=
  fun x y z => ZMod.dft.symm (fun j => g j y z) x

/-- Inverse DFT along the second axis. -/
noncomputable def ifftAxis2 (n : ℕ)
    (g : ZMod (n + 1) → ZMod (n + 1) → ZMod (n + 1) → ℂ) :
    ZMod (n + 1) → ZMod (n + 1) → ZMod (n + 1) → ℂ :=
  fun x y z => ZMod.dft.symm (fun j => g x j z) y

/-- Inverse DFT along the third axis. -/
noncomputable def ifftAxis3 (n : ℕ)
    (g : ZMod (n + 1) → ZMod (n + 1) → ZMod (n + 1) → ℂ) :
    ZMod (n + 1) → ZMod (n + 1) → ZMod (n + 1) → ℂ :=
  fun x y z => ZMod.dft.symm (fun j => g x y j) z

/-- `jnp.fft.fftn` on a cubic 3D grid. -/
noncomputable def fftn3 (n : ℕ)
    (g : ZMod (n + 1) → ZMod (n + 1) → ZMod (n + 1) → ℂ) :
    ZMod (n + 1) → ZMod (n + 1) → ZMod (n + 1) → ℂ :=
  fftAxis1 n (fftAxis2 n (fftAxis3 n g))

/-- `jnp.fft.ifftn` on a cubic 3D grid. -/
noncomputable def ifftn3 (n : ℕ)
    (g : ZMod (n + 1) → ZMod (n + 1) → ZMod (n + 1) → ℂ) :
    ZMod (n + 1) → ZMod (n + 1) → ZMod (n + 1) → ℂ :=
  ifftAxis3 n (ifftAxis2 n (ifftAxis1 n g))

/-- Modelled from the spec: the repository's `cryojax.image.ifftn` helper —
an inverse DFT whose real-space output has its origin shifted back to the
grid center (section 3 zero-frequency bookkeeping). -/
noncomputable def ifftnCryojax (n : ℕ)
    (g : ZMod (n + 1) → ZMod (n + 1) → ZMod (n + 1) → ℂ) :
    ZMod (n + 1) → ZMod (n + 1) → ZMod (n + 1) → ℂ :=
  fftshift3 n (ifftn3 n g)

/-! ## Voxel potential representations

Modelled from the spec: `RealVoxelGridPotential.from_atoms` stores the
grid from the Density Builder directly; `FourierVoxelGridPotential.from_atoms`
stores its centered discrete Fourier transform
`fftshift(FFT(ifftshift(grid)))` (section 4.2). -/

/-- Modelled from the spec: the grid stored by
`RealVoxelGridPotential.from_atoms` (section 4.2). -/
noncomputable def RealVoxelGridPotential_from_atoms (n N : ℕ)
    (pos : Fin N → ℝ × ℝ × ℝ) (a b : Fin N → Fin 5 → ℝ) (v : ℝ) :
    ZMod (n + 1) → ZMod (n + 1) → ZMod (n + 1) → ℝ :=
  build_real_space_voxels_from_atoms n N pos a b v

/-- Modelled from the spec: the grid stored by
`FourierVoxelGridPotential.from_atoms` — the centered DFT
`fftshift(FFT(ifftshift(grid)))` of the real-space grid (section 4.2). -/
noncomputable def FourierVoxelGridPotential_from_atoms (n N : ℕ)
    (pos : Fin N → ℝ × ℝ × ℝ) (a b : Fin N → Fin 5 → ℝ) (v : ℝ) :
    ZMod (n + 1) → ZMod (n + 1) → ZMod (n + 1) → ℂ :=
  fftshift3 n (fftn3 n (ifftshift3 n
    (fun x y z => ((build_real_space_voxels_from_atoms n N pos a b v x y z : ℝ) : ℂ))))

/-! ## Point-cloud projection kernels (`scattering.py`, lines 246-335)

`project_with_nufft` and `project_with_gaussians` are sources; the library
primitives `bound`, `nufft`, `integrate_gaussians` and `fft` they call
(`cryojax.utils`) are modelled from the spec (sections 1 and 4.4).
Coordinates and box sizes are embedded as exact rationals, densities and
images as reals/complexes. -/

/-- Modelled from the spec: `cryojax.utils.bound` — restrict (bounds-mask)
the density to the points whose projected 2D coordinate lies within the
target box, zeroing all others (section 4.4). -/
def bound (N : ℕ) (density : Fin N → ℝ) (coords2 : Fin N → ℚ × ℚ)
    (box2 : ℚ × ℚ) : Fin N → ℝ :=
  fun p =>
    if |(coords2 p).1| ≤ box2.1 / 2 ∧ |(coords2 p).2| ≤ box2.2 / 2 then density p
    else 0

/-- The centered frequency index of output pixel `k` on an axis of `n`
pixels. -/
def centeredFreq (n k : ℕ) : ℤ := (k : ℤ) - ((n / 2 : ℕ) : ℤ)

open Real in
/-- Modelled from the spec: `cryojax.utils.nufft` — the type-1 non-uniform
discrete Fourier transform of weighted points at 2D coordinates onto a
uniform `shape` grid (section 4.4). -/
noncomputable def nufft (N : ℕ) (w : Fin N → ℝ) (coords2 : Fin N → ℚ × ℚ)
    (box2 : ℚ × ℚ) (shape : ℕ × ℕ) : ℕ → ℕ → ℂ :=
  fun k1 k2 =>
    ∑ p, (w p : ℂ) *
      Complex.exp (-2 * (π : ℂ) * Complex.I *
        (((coords2 p).1 / box2.1 : ℚ) * (centeredFreq shape.1 k1 : ℤ) +
         ((coords2 p).2 / box2.2 : ℚ) * (centeredFreq shape.2 k2 : ℤ)))

/-- The lower edge of pixel `i` on a centered axis of `n` pixels of size
`ps`. -/
def pixelLo (n i : ℕ) (ps : ℚ) : ℚ := ((i : ℤ) - ((n / 2 : ℕ) : ℤ)) * ps

open Real in
/-- Modelled from the spec: the exact integral of an isotropic Gaussian of
variance `scale` centered at `c` over pixel `i` of a centered axis
(section 4.4, Gaussian-integration variant). -/
noncomputable def pixelGaussIntegral (n i : ℕ) (ps : ℚ) (c scale : ℚ) : ℝ :=
  ∫ t in ((pixelLo n i ps : ℚ) : ℝ)..(((pixelLo n i ps + ps : ℚ)) : ℝ),
    Real.exp (-(t - (c : ℝ)) ^ 2 / (2 * (scale : ℝ)))

/-- Modelled from the spec: `cryojax.utils.integrate_gaussians` — the
real-space image whose pixel `(i, j)` is the sum over all points of the
weight times the closed-form integral of that point's Gaussian over the
pixel's area (section 4.4). -/
noncomputable def integrate_gaussians (N : ℕ) (w : Fin N → ℝ)
    (coords2 : Fin N → ℚ × ℚ) (scale : ℚ) (shape : ℕ × ℕ) (ps : ℚ) :
    ℕ → ℕ → ℝ :=
  fun i j =>
    ∑ p, w p * pixelGaussIntegral shape.1 i ps (coords2 p).1 scale *
      pixelGaussIntegral shape.2 j ps (coords2 p).2 scale

open Real in
/-- Modelled from the spec: `cryojax.utils.fft` — the 2D discrete Fourier
transform of a real-space image of the given shape. -/
noncomputable def fft (shape : ℕ × ℕ) (img : ℕ → ℕ → ℝ) : ℕ → ℕ → ℂ :=
  fun k1 k2 =>
    ∑ i ∈ Finset.range shape.1, ∑ j ∈ Finset.range shape.2,
      (img i j : ℂ) *
        Complex.exp (-2 * (π : ℂ) * Complex.I *
          ((i : ℂ) * (k1 : ℂ) / (shape.1 : ℂ) + (j : ℂ) * (k2 : ℂ) / (shape.2 : ℂ)))

/-- The first two components of a 3D point. -/
def proj2 (c : ℚ × ℚ × ℚ) : ℚ × ℚ := (c.1, c.2.1)

/-- `project_with_nufft(density, coordinates, box_size, shape, eps)`
(lines 246-286): bounds-mask on the first two coordinate columns and the
first two box components, then non-uniform FFT of the masked cloud. -/
noncomputable def project_with_nufft (N : ℕ) (density : Fin N → ℝ)
    (coordinates : Fin N → ℚ × ℚ × ℚ) (box_size : ℚ × ℚ × ℚ)
    (shape : ℕ × ℕ) : ℕ → ℕ → ℂ :=
  nufft N (bound N density (fun p => proj2 (coordinates p)) (proj2 box_size))
    (fun p => proj2 (coordinates p)) (proj2 box_size) shape

/-- `project_with_gaussians(density, coordinates, box_size, shape,
pixel_size, scale)` (lines 289-335): bounds-mask on the first two
coordinate columns and box components, Gaussian pixel integration, then a
forward FFT. -/
noncomputable def project_with_gaussians (N : ℕ) (density : Fin N → ℝ)
    (coordinates : Fin N → ℚ × ℚ × ℚ) (box_size : ℚ × ℚ × ℚ)
    (shape : ℕ × ℕ) (pixel_size scale : ℚ) : ℕ → ℕ → ℂ :=
  fft shape
    (integrate_gaussians N
      (bound N density (fun p => proj2 (coordinates p)) (proj2 box_size))
      (fun p => proj2 (coordinates p)) scale shape pixel_size)

/-! ## `FourierSliceScattering.scatter` (`scattering.py`, lines 138-158) -/

/-- The error conditions of the scattering engine. -/
inductive ScatterError where
  | notImplemented
deriving DecidableEq

/-- The configuration of `FourierSliceScattering`: an `ImageConfig`
together with the interpolation order. -/
structure FourierSliceScattering where
  config : ImageConfig
  order : ℕ

/-- `FourierSliceScattering.scatter` (line 147): its body raises
`NotImplementedError` before any computation — the interpolation code is
commented out — so every call fails with that condition and produces no
partial output. -/
def FourierSliceScattering.scatter (s : FourierSliceScattering) (N : ℕ)
    (density : Fin N → ℂ) (coordinates : Fin N → ℚ × ℚ × ℚ) :
    Except ScatterError (ℕ → ℕ → ℂ) :=
  Except.error ScatterError.notImplemented

/-! ## Batched (vmapped) density building

Modelled from the spec: `jax.vmap` over a leading trajectory axis executes
the builder's accumulation over atoms in lockstep across all batch
elements (section 5).  The unbatched builder folds the per-atom Gaussian
contribution over the atom list; the batched builder folds the same
contribution over batched atoms, updating every batch element at each
step. -/

open Real in
/-- Modelled from the spec: the contribution of a single atom
`(position, a-coefficients, b-coefficients)` to the density at `r`
(section 4.1). -/
noncomputable def atomTerm (at_ : (ℝ × ℝ × ℝ) × (Fin 5 → ℝ) × (Fin 5 → ℝ))
    (r : ℝ × ℝ × ℝ) : ℝ :=
  ∑ k,
    4 * π * at_.2.1 k * Real.sqrt (4 * π / at_.2.2 k) ^ 3 *
      Real.exp (-(4 * π ^ 2 / at_.2.2 k) *
        ((r.1 - at_.1.1) ^ 2 + (r.2.1 - at_.1.2.1) ^ 2 + (r.2.2 - at_.1.2.2) ^ 2))

/-- Modelled from the spec: the unbatched Density Builder as a sequential
accumulation over the atom list (section 4.1). -/
noncomputable def buildDensityList
    (atoms : List ((ℝ × ℝ × ℝ) × (Fin 5 → ℝ) × (Fin 5 → ℝ))) :
    (ℝ × ℝ × ℝ) → ℝ :=
  atoms.foldl (fun acc at_ => fun r => acc r + atomTerm at_ r) (fun _ => 0)

/-- Modelled from the spec: the vmapped Density Builder over a stacked
batch of `B` trajectories — at each atom index the accumulation updates
all batch elements in lockstep (section 5). -/
noncomputable def buildDensityBatched (B : ℕ)
    (traj : List (Fin B → (ℝ × ℝ × ℝ) × (Fin 5 → ℝ) × (Fin 5 → ℝ))) :
    Fin B → (ℝ × ℝ × ℝ) → ℝ :=
  traj.foldl (fun acc bat => fun b r => acc b r + atomTerm (bat b) r) (fun _ _ => 0)

/-! ## Helper lemmas -/

/-- Centered crop after centered pad restores every in-shape pixel. -/
lemma cropImage_padImage (M Nn : ℕ × ℕ) (fill : ℝ) (img : ℕ → ℕ → ℝ)
    (i j : ℕ) (hi : i < Nn.1) (hj : j < Nn.2) :
    cropImage M Nn (padImage Nn M fill img) i j = img i j := by
  unfold cropImage padImage
  rw [if_pos]
  · congr 1 <;> omega
  · exact ⟨Nat.le_add_right _ _, by omega, Nat.le_add_right _ _, by omega⟩

/-- A clipped index is within bounds. -/
lemma clipIndex_lt (z : ℤ) (n : ℕ) (hn : 0 < n) : clipIndex z n < n := by
  unfold clipIndex
  have := Nat.min_le_right z.toNat (n - 1)
  omega

/-- A flattened row-major index is within the flattened length. -/
lemma flatIndex_lt {N1 N2 x y : ℕ} (hx : x < N1) (hy : y < N2) :
    x * N2 + y < N1 * N2 :=
  calc x * N2 + y < x * N2 + N2 := by omega
    _ = (x + 1) * N2 := by ring
    _ ≤ N1 * N2 := Nat.mul_le_mul_right _ (by omega)

/-- Row-major flattening is injective on in-range pixel pairs. -/
lemma flatIndex_inj {N2 i j x y : ℕ} (hj : j < N2) (hy : y < N2)
    (h : i * N2 + j = x * N2 + y) : i = x ∧ j = y := by
  have hN2 : 0 < N2 := by omega
  have e1 : (j + i * N2) / N2 = i := by
    rw [Nat.add_mul_div_right _ _ hN2, Nat.div_eq_of_lt hj, Nat.zero_add]
  have e2 : (y + x * N2) / N2 = x := by
    rw [Nat.add_mul_div_right _ _ hN2, Nat.div_eq_of_lt hy, Nat.zero_add]
  have h1 : i = x := by rw [← e1, ← e2]; congr 1; omega
  exact ⟨h1, by subst h1; omega⟩

/-- The weighted histogram over flattened clipped pixels agrees, bin by
bin, with the per-pixel sum of the weights binned there. -/
lemma bincount_map_eq_sum (N1 N2 i j : ℕ) (hi : i < N1) (hj : j < N2)
    (l : List ((ℚ × ℚ × ℚ) × ℝ)) :
    bincount (N1 * N2)
      (l.map (fun pc =>
        ((binPixel N1 N2 pc.1).1 * N2 + (binPixel N1 N2 pc.1).2, pc.2)))
      (i * N2 + j)
      = (l.map (fun pc => if binPixel N1 N2 pc.1 = (i, j) then pc.2 else 0)).sum := by
  induction l with
  | nil => simp [bincount]
  | cons pc rest ih =>
    obtain ⟨c, w⟩ := pc
    simp only [List.map_cons, List.sum_cons, bincount]
    rw [ih]
    congr 1
    have hx : (binPixel N1 N2 c).1 < N1 := clipIndex_lt _ _ (by omega)
    have hy : (binPixel N1 N2 c).2 < N2 := clipIndex_lt _ _ (by omega)
    by_cases hbp : binPixel N1 N2 c = (i, j)
    · rw [if_pos, if_pos hbp]
      have h1 : (binPixel N1 N2 c).1 = i := by rw [hbp]
      have h2 : (binPixel N1 N2 c).2 = j := by rw [hbp]
      rw [h1, h2]
      exact ⟨rfl, flatIndex_lt hi hj⟩
    · rw [if_neg, if_neg hbp]
      intro hcon
      obtain ⟨heq, _⟩ := hcon
      obtain ⟨h1, h2⟩ := flatIndex_inj hj hy heq
      exact hbp (Prod.ext h1.symm h2.symm)

/-- Lockstep batched accumulation over atoms agrees with the unbatched
accumulation at every batch index, for any starting accumulator. -/
lemma foldl_batched_eq (B : ℕ)
    (traj : List (Fin B → (ℝ × ℝ × ℝ) × (Fin 5 → ℝ) × (Fin 5 → ℝ)))
    (b : Fin B) (r : ℝ × ℝ × ℝ) :
    ∀ acc : Fin B → (ℝ × ℝ × ℝ) → ℝ,
      (traj.foldl (fun acc bat => fun b r => acc b r + atomTerm (bat b) r) acc) b r
        = ((traj.map (fun bat => bat b)).foldl
            (fun acc at_ => fun r => acc r + atomTerm at_ r) (acc b)) r := by
  induction traj with
  | nil => intro acc; rfl
  | cons hd tl ih =>
    intro acc
    simp only [List.foldl_cons, List.map_cons]
    exact ih _

/-! ## Claim theorems -/

/-- Claim C2, counterexample: at `shape = (3, 3)` and `pad_scale = 1.9`
the stored padded dimension is `int(3 * 1.9) = 5`, not
`round(3 * 1.9) = 6` — the code truncates rather than rounding to the
nearest integer. -/
theorem paddedShape_not_round_nearest :
    (mkImageConfig (3, 3) 1 (19/10)).paddedShape ≠
      ((roundNearest ((3 : ℚ) * (19/10))).toNat,
       (roundNearest ((3 : ℚ) * (19/10))).toNat) := by
  have hf : ⌊(((3, 3).1 : ℕ) : ℚ) * (19/10)⌋ = (5 : ℤ) := by
    rw [Int.floor_eq_iff]
    constructor <;> norm_num
  have hr : roundNearest ((3 : ℚ) * (19/10)) = (6 : ℤ) := by
    unfold roundNearest
    rw [Int.floor_eq_iff]
    constructor <;> norm_num
  have h0 : (0 : ℚ) ≤ (((3, 3).1 : ℕ) : ℚ) * (19/10) := by norm_num
  have hps : (mkImageConfig (3, 3) 1 (19/10)).paddedShape = (5, 5) := by
    show paddedShapeOf (3, 3) (19/10) = (5, 5)
    unfold paddedShapeOf pyInt
    rw [if_pos h0, hf]
    rfl
  rw [hps, hr]
  decide

/-- Claim C2, amended: for `pad_scale ≥ 1` each stored padded dimension is
the nominal dimension times `pad_scale` truncated (i.e. rounded down) to
an integer, and is at least the nominal dimension. -/
theorem paddedShape_eq_floor (shape : ℕ × ℕ) (px p : ℚ) (hp : 1 ≤ p) :
    (mkImageConfig shape px p).paddedShape =
      ((⌊(shape.1 : ℚ) * p⌋).toNat, (⌊(shape.2 : ℚ) * p⌋).toNat) ∧
    shape.1 ≤ (mkImageConfig shape px p).paddedShape.1 ∧
    shape.2 ≤ (mkImageConfig shape px p).paddedShape.2 := by
  have hp0 : (0 : ℚ) ≤ p := le_trans zero_le_one hp
  have key : ∀ s : ℕ, (pyInt ((s : ℚ) * p)).toNat = (⌊(s : ℚ) * p⌋).toNat ∧
      s ≤ (pyInt ((s : ℚ) * p)).toNat := by
    intro s
    have hq0 : (0 : ℚ) ≤ (s : ℚ) * p := mul_nonneg (Nat.cast_nonneg s) hp0
    have hpy : pyInt ((s : ℚ) * p) = ⌊(s : ℚ) * p⌋ := by
      unfold pyInt; rw [if_pos hq0]
    have hfl : (s : ℤ) ≤ ⌊(s : ℚ) * p⌋ := by
      rw [Int.le_floor]
      push_cast
      calc (s : ℚ) = (s : ℚ) * 1 := by ring
        _ ≤ (s : ℚ) * p := by
            exact mul_le_mul_of_nonneg_left hp (Nat.cast_nonneg s)
    have h0 : (0 : ℤ) ≤ ⌊(s : ℚ) * p⌋ := le_trans (Int.ofNat_nonneg s) hfl
    refine ⟨by rw [hpy], ?_⟩
    rw [hpy]
    exact (Int.le_toNat h0).mpr hfl
  refine ⟨Prod.ext (key shape.1).1 (key shape.2).1, (key shape.1).2, (key shape.2).2⟩

/-- Claim C2, witness: the amended statement instantiated at
`shape = (3, 3)`, `pad_scale = 1.9`. -/
theorem paddedShape_eq_floor_witness :
    (1 : ℚ) ≤ 19/10 ∧
    ((mkImageConfig (3, 3) 1 (19/10)).paddedShape =
        ((⌊((3 : ℕ) : ℚ) * (19/10)⌋).toNat, (⌊((3 : ℕ) : ℚ) * (19/10)⌋).toNat) ∧
      (3 : ℕ) ≤ (mkImageConfig (3, 3) 1 (19/10)).paddedShape.1 ∧
      (3 : ℕ) ≤ (mkImageConfig (3, 3) 1 (19/10)).paddedShape.2) :=
  ⟨by norm_num, paddedShape_eq_floor (3, 3) 1 (19/10) (by norm_num)⟩

/-- Claim C4: constructing an `ImageConfig` with `pad_scale = 0.5 < 1`
does not fail — `__post_init__` performs no validation — and silently
yields a padded shape `(2, 2)` strictly smaller than the nominal
shape `(4, 4)`. -/
theorem mkImageConfig_accepts_pad_scale_below_one :
    (mkImageConfig (4, 4) 1 (1/2)).paddedShape = (2, 2) ∧
    (mkImageConfig (4, 4) 1 (1/2)).paddedShape.1 <
      (mkImageConfig (4, 4) 1 (1/2)).shape.1 := by
  have hf : ⌊(((4, 4).1 : ℕ) : ℚ) * (1/2)⌋ = (2 : ℤ) := by
    rw [Int.floor_eq_iff]
    constructor <;> norm_num
  have h0 : (0 : ℚ) ≤ (((4, 4).1 : ℕ) : ℚ) * (1/2) := by norm_num
  have hps : (mkImageConfig (4, 4) 1 (1/2)).paddedShape = (2, 2) := by
    show paddedShapeOf (4, 4) (1/2) = (2, 2)
    unfold paddedShapeOf pyInt
    rw [if_pos h0, hf]
    rfl
  exact ⟨hps, by rw [hps]; decide⟩

/-- Claim C5: `FourierSliceScattering.scatter` fails with the
`NotImplemented` condition on every argument list, performing no
computation and returning no partial projection. -/
theorem fourierSliceScattering_scatter_raises (s : FourierSliceScattering)
    (N : ℕ) (density : Fin N → ℂ) (coordinates : Fin N → ℚ × ℚ × ℚ) :
    s.scatter N density coordinates = Except.error ScatterError.notImplemented :=
  rfl

/-- Claim C3: on an image already at the nominal shape, `crop ∘ pad` and
`downsample ∘ upsample` are the identity at every in-shape pixel. -/
theorem crop_pad_and_downsample_upsample_identity (shape : ℕ × ℕ)
    (px p : ℚ) (fill : ℝ) (img : ℕ → ℕ → ℝ) (i j : ℕ)
    (hi : i < shape.1) (hj : j < shape.2) :
    (mkImageConfig shape px p).crop ((mkImageConfig shape px p).pad fill img) i j
        = img i j ∧
    (mkImageConfig shape px p).downsample
        ((mkImageConfig shape px p).upsample img) i j = img i j :=
  ⟨cropImage_padImage _ _ fill img i j hi hj,
   cropImage_padImage _ _ 0 img i j hi hj⟩

/-- Claim C3, witness: the identity instantiated on a concrete 2×2 image
padded to shape 4×4. -/
theorem crop_pad_and_downsample_upsample_identity_witness :
    1 < 2 ∧ 0 < 2 ∧
    ((mkImageConfig (2, 2) 1 2).crop
        ((mkImageConfig (2, 2) 1 2).pad 5 (fun i j => (i : ℝ) + 2 * (j : ℝ))) 1 0
        = ((1 : ℕ) : ℝ) + 2 * ((0 : ℕ) : ℝ) ∧
      (mkImageConfig (2, 2) 1 2).downsample
        ((mkImageConfig (2, 2) 1 2).upsample (fun i j => (i : ℝ) + 2 * (j : ℝ))) 1 0
        = ((1 : ℕ) : ℝ) + 2 * ((0 : ℕ) : ℝ)) :=
  ⟨by decide, by decide,
    crop_pad_and_downsample_upsample_identity (2, 2) 1 2 5
      (fun i j => (i : ℝ) + 2 * (j : ℝ)) 1 0 (by decide) (by decide)⟩

/-- Claim C7: at every in-shape pixel, `project_with_binning` equals the
sum of the density values of exactly those points whose first two
coordinates, rounded half-to-even, shifted by `N1 // 2` resp. `N2 // 2`
and clipped to the boundary, land on that pixel. -/
theorem project_with_binning_eq_binnedSum (density : List ℝ)
    (coords : List (ℚ × ℚ × ℚ)) (shape : ℕ × ℕ) (i j : ℕ)
    (hi : i < shape.1) (hj : j < shape.2) :
    project_with_binning density coords shape i j
      = binnedSum density coords shape.1 shape.2 (i, j) := by
  unfold project_with_binning binnedSum
  exact bincount_map_eq_sum shape.1 shape.2 i j hi hj (coords.zip density)

/-- Claim C7, witness: the binning characterization instantiated on a
concrete two-point cloud over a 2×2 image. -/
theorem project_with_binning_eq_binnedSum_witness :
    1 < 2 ∧ 0 < 2 ∧
    project_with_binning [1, 2] [(0, 0, 0), (6/10, -(7/10), 3)] (2, 2) 1 0
      = binnedSum [1, 2] [(0, 0, 0), (6/10, -(7/10), 3)] 2 2 (1, 0) :=
  ⟨by decide, by decide,
    project_with_binning_eq_binnedSum [1, 2] [(0, 0, 0), (6/10, -(7/10), 3)]
      (2, 2) 1 0 (by decide) (by decide)⟩

/-- Claim C6: when every point's projected 2D coordinate lies outside the
box, the bounds mask zeroes the whole cloud and both `project_with_nufft`
and `project_with_gaussians` return the all-zero projection, with no
error. -/
theorem projections_zero_outside_box (N : ℕ) (density : Fin N → ℝ)
    (coordinates : Fin N → ℚ × ℚ × ℚ) (box_size : ℚ × ℚ × ℚ)
    (shape : ℕ × ℕ) (pixel_size scale : ℚ)
    (h : ∀ p, ¬(|(coordinates p).1| ≤ box_size.1 / 2 ∧
               |(coordinates p).2.1| ≤ box_size.2.1 / 2))
    (k1 k2 : ℕ) :
    project_with_nufft N density coordinates box_size shape k1 k2 = 0 ∧
    project_with_gaussians N density coordinates box_size shape pixel_size scale
        k1 k2 = 0 := by
  have hmask :
      bound N density (fun p => proj2 (coordinates p)) (proj2 box_size)
        = fun _ => 0 := by
    funext p
    unfold bound
    exact if_neg (h p)
  constructor
  · unfold project_with_nufft nufft
    rw [hmask]
    simp
  · unfold project_with_gaussians
    rw [hmask]
    unfold fft integrate_gaussians
    simp

/-- Claim C6, witness: a one-point cloud at `(10, 10, 0)` outside the box
`(2, 2, 2)` projects to zero under both variants. -/
theorem projections_zero_outside_box_witness :
    (∀ p : Fin 1, ¬(|(10 : ℚ)| ≤ (2 : ℚ) / 2 ∧ |(10 : ℚ)| ≤ (2 : ℚ) / 2)) ∧
    (project_with_nufft 1 (fun _ => 1) (fun _ => (10, 10, 0)) (2, 2, 2) (2, 2)
        0 0 = 0 ∧
      project_with_gaussians 1 (fun _ => 1) (fun _ => (10, 10, 0)) (2, 2, 2)
        (2, 2) 1 1 0 0 = 0) :=
  ⟨fun _ => by norm_num,
    projections_zero_outside_box 1 (fun _ => 1) (fun _ => (10, 10, 0))
      (2, 2, 2) (2, 2) 1 1 (fun _ => by norm_num) 0 0⟩

/-- Claim C10: the outputs of `project_with_nufft` and
`project_with_gaussians` never read the third coordinate column or the
third box component — calls whose inputs differ only there coincide. -/
theorem projections_ignore_third_components (N : ℕ) (density : Fin N → ℝ)
    (c c' : Fin N → ℚ × ℚ × ℚ) (box box' : ℚ × ℚ × ℚ) (shape : ℕ × ℕ)
    (pixel_size scale : ℚ)
    (hc : ∀ p, (c p).1 = (c' p).1 ∧ (c p).2.1 = (c' p).2.1)
    (hb : box.1 = box'.1 ∧ box.2.1 = box'.2.1) :
    project_with_nufft N density c box shape
        = project_with_nufft N density c' box' shape ∧
    project_with_gaussians N density c box shape pixel_size scale
        = project_with_gaussians N density c' box' shape pixel_size scale := by
  have e1 : (fun p => proj2 (c p)) = fun p => proj2 (c' p) :=
    funext fun p => Prod.ext (hc p).1 (hc p).2
  have e2 : proj2 box = proj2 box' := Prod.ext hb.1 hb.2
  constructor
  · unfold project_with_nufft
    rw [e1, e2]
  · unfold project_with_gaussians
    rw [e1, e2]

/-- Claim C10, witness: two calls differing only in the third coordinate
component (5 vs 7) and the third box dimension (9 vs 11) coincide. -/
theorem projections_ignore_third_components_witness :
    (∀ _ : Fin 1, (1 : ℚ) = 1 ∧ (1 : ℚ) = 1) ∧
    (project_with_nufft 1 (fun _ => 1) (fun _ => (1, 1, 5)) (2, 2, 9) (2, 2)
        = project_with_nufft 1 (fun _ => 1) (fun _ => (1, 1, 7)) (2, 2, 11) (2, 2) ∧
      project_with_gaussians 1 (fun _ => 1) (fun _ => (1, 1, 5)) (2, 2, 9)
          (2, 2) 1 1
        = project_with_gaussians 1 (fun _ => 1) (fun _ => (1, 1, 7)) (2, 2, 11)
          (2, 2) 1 1) :=
  ⟨fun _ => ⟨rfl, rfl⟩,
    projections_ignore_third_components 1 (fun _ => 1) (fun _ => (1, 1, 5))
      (fun _ => (1, 1, 7)) (2, 2, 9) (2, 2, 11) (2, 2) 1 1
      (fun _ => ⟨rfl, rfl⟩) ⟨rfl, rfl⟩⟩

/-- `ifftshift` undoes `fftshift` on all three axes. -/
lemma ifftshift3_fftshift3 (n : ℕ)
    (g : ZMod (n + 1) → ZMod (n + 1) → ZMod (n + 1) → ℂ) :
    ifftshift3 n (fftshift3 n g) = g := by
  funext x y z
  unfold ifftshift3 fftshift3
  rw [add_sub_cancel_right, add_sub_cancel_right, add_sub_cancel_right]

/-- `fftshift` undoes `ifftshift` on all three axes. -/
lemma fftshift3_ifftshift3 (n : ℕ)
    (g : ZMod (n + 1) → ZMod (n + 1) → ZMod (n + 1) → ℂ) :
    fftshift3 n (ifftshift3 n g) = g := by
  funext x y z
  unfold fftshift3 ifftshift3
  rw [sub_add_cancel, sub_add_cancel, sub_add_cancel]

/-- The inverse DFT undoes the forward DFT along the first axis. -/
lemma ifftAxis1_fftAxis1 (n : ℕ)
    (g : ZMod (n + 1) → ZMod (n + 1) → ZMod (n + 1) → ℂ) :
    ifftAxis1 n (fftAxis1 n g) = g := by
  funext x y z
  exact congrFun (LinearEquiv.symm_apply_apply ZMod.dft (fun i => g i y z)) x

/-- The inverse DFT undoes the forward DFT along the second axis. -/
lemma ifftAxis2_fftAxis2 (n : ℕ)
    (g : ZMod (n + 1) → ZMod (n + 1) → ZMod (n + 1) → ℂ) :
    ifftAxis2 n (fftAxis2 n g) = g := by
  funext x y z
  exact congrFun (LinearEquiv.symm_apply_apply ZMod.dft (fun j => g x j z)) y

/-- The inverse DFT undoes the forward DFT along the third axis. -/
lemma ifftAxis3_fftAxis3 (n : ℕ)
    (g : ZMod (n + 1) → ZMod (n + 1) → ZMod (n + 1) → ℂ) :
    ifftAxis3 n (fftAxis3 n g) = g := by
  funext x y z
  exact congrFun (LinearEquiv.symm_apply_apply ZMod.dft (fun j => g x y j)) z

/-- `jnp.fft.ifftn` inverts `jnp.fft.fftn` on a cubic 3D grid. -/
lemma ifftn3_fftn3 (n : ℕ)
    (g : ZMod (n + 1) → ZMod (n + 1) → ZMod (n + 1) → ℂ) :
    ifftn3 n (fftn3 n g) = g := by
  unfold ifftn3 fftn3
  rw [ifftAxis1_fftAxis1, ifftAxis2_fftAxis2, ifftAxis3_fftAxis3]

/-- Claim C1: for every atom set, voxel size and cubic grid,
inverse-transforming the grid stored by
`FourierVoxelGridPotential.from_atoms` — the real part of `ifftn` applied
after `ifftshift` — recovers, exactly, the grid stored by
`RealVoxelGridPotential.from_atoms`; exact equality in particular implies
agreement within `1e-12` absolute tolerance. -/
theorem fourier_real_voxel_grid_agreement (n N : ℕ)
    (pos : Fin N → ℝ × ℝ × ℝ) (a b : Fin N → Fin 5 → ℝ) (v : ℝ)
    (x y z : ZMod (n + 1)) :
    (ifftnCryojax n
        (ifftshift3 n (FourierVoxelGridPotential_from_atoms n N pos a b v)) x y z).re
      = RealVoxelGridPotential_from_atoms n N pos a b v x y z := by
  unfold ifftnCryojax FourierVoxelGridPotential_from_atoms
  rw [ifftshift3_fftshift3, ifftn3_fftn3, fftshift3_ifftshift3]
  exact Complex.ofReal_re _

/-! ## Integral conservation of the Density Builder -/

open MeasureTheory Real

/-- A shifted 3D Gaussian factors into a product of 1D Gaussians along
the three coordinate axes. -/
lemma gauss3_factor (c p1 p2 p3 : ℝ) :
    (fun r : ℝ × ℝ × ℝ =>
        Real.exp (-c * ((r.1 - p1) ^ 2 + (r.2.1 - p2) ^ 2 + (r.2.2 - p3) ^ 2)))
      = fun r : ℝ × ℝ × ℝ =>
          Real.exp (-c * (r.1 - p1) ^ 2) *
            (Real.exp (-c * (r.2.1 - p2) ^ 2) * Real.exp (-c * (r.2.2 - p3) ^ 2)) := by
  funext r
  rw [← Real.exp_add, ← Real.exp_add]
  congr 1
  ring

/-- A shifted 1D Gaussian is integrable. -/
lemma integrable_gauss_shift (c p : ℝ) (hc : 0 < c) :
    Integrable (fun x : ℝ => Real.exp (-c * (x - p) ^ 2)) :=
  (integrable_exp_neg_mul_sq hc).comp_sub_right p

/-- The integral of a shifted 1D Gaussian. -/
lemma integral_gauss_shift (c p : ℝ) :
    ∫ x : ℝ, Real.exp (-c * (x - p) ^ 2) = Real.sqrt (π / c) :=
  calc ∫ x : ℝ, Real.exp (-c * (x - p) ^ 2)
      = ∫ x : ℝ, Real.exp (-c * x ^ 2) :=
        integral_sub_right_eq_self (fun t : ℝ => Real.exp (-c * t ^ 2)) p
    _ = Real.sqrt (π / c) := integral_gaussian c

/-- A shifted 3D Gaussian is integrable. -/
lemma integrable_gauss3 (c : ℝ) (hc : 0 < c) (p1 p2 p3 : ℝ) :
    Integrable (fun r : ℝ × ℝ × ℝ =>
      Real.exp (-c * ((r.1 - p1) ^ 2 + (r.2.1 - p2) ^ 2 + (r.2.2 - p3) ^ 2))) := by
  rw [gauss3_factor, MeasureTheory.Measure.volume_eq_prod]
  exact (integrable_gauss_shift c p1 hc).prod_mul
    ((integrable_gauss_shift c p2 hc).prod_mul (integrable_gauss_shift c p3 hc))

/-- The integral of a shifted 3D Gaussian. -/
lemma integral_gauss3 (c : ℝ) (p1 p2 p3 : ℝ) :
    ∫ r : ℝ × ℝ × ℝ,
        Real.exp (-c * ((r.1 - p1) ^ 2 + (r.2.1 - p2) ^ 2 + (r.2.2 - p3) ^ 2))
      = Real.sqrt (π / c) ^ 3 := by
  rw [gauss3_factor, MeasureTheory.Measure.volume_eq_prod]
  rw [MeasureTheory.integral_prod_mul (fun x : ℝ => Real.exp (-c * (x - p1) ^ 2))
    (fun q : ℝ × ℝ => Real.exp (-c * (q.1 - p2) ^ 2) * Real.exp (-c * (q.2 - p3) ^ 2))]
  rw [MeasureTheory.Measure.volume_eq_prod]
  rw [MeasureTheory.integral_prod_mul (fun x : ℝ => Real.exp (-c * (x - p2) ^ 2))
    (fun x : ℝ => Real.exp (-c * (x - p3) ^ 2))]
  rw [integral_gauss_shift, integral_gauss_shift, integral_gauss_shift]
  ring

/-- Each atom's single-Gaussian term is integrable. -/
lemma integrable_atom_term (N : ℕ) (pos : Fin N → ℝ × ℝ × ℝ)
    (a b : Fin N → Fin 5 → ℝ) (hb : ∀ i k, 0 < b i k) (i : Fin N) (k : Fin 5) :
    Integrable (fun r : ℝ × ℝ × ℝ =>
      4 * π * a i k * Real.sqrt (4 * π / b i k) ^ 3 *
        Real.exp (-(4 * π ^ 2 / b i k) *
          ((r.1 - (pos i).1) ^ 2 + (r.2.1 - (pos i).2.1) ^ 2 +
            (r.2.2 - (pos i).2.2) ^ 2))) := by
  have hc : 0 < 4 * π ^ 2 / b i k := by
    apply div_pos _ (hb i k)
    positivity
  exact (integrable_gauss3 _ hc (pos i).1 (pos i).2.1 (pos i).2.2).const_mul _

/-- The integral of one atom's single-Gaussian term is its amplitude
coefficient times `4π`, independent of the width coefficient. -/
lemma integral_atom_term (N : ℕ) (pos : Fin N → ℝ × ℝ × ℝ)
    (a b : Fin N → Fin 5 → ℝ) (hb : ∀ i k, 0 < b i k) (i : Fin N) (k : Fin 5) :
    ∫ r : ℝ × ℝ × ℝ,
        4 * π * a i k * Real.sqrt (4 * π / b i k) ^ 3 *
          Real.exp (-(4 * π ^ 2 / b i k) *
            ((r.1 - (pos i).1) ^ 2 + (r.2.1 - (pos i).2.1) ^ 2 +
              (r.2.2 - (pos i).2.2) ^ 2))
      = a i k * (4 * π) := by
  have hbik : (0 : ℝ) < b i k := hb i k
  have hbne : b i k ≠ 0 := ne_of_gt hbik
  have hπ : (π : ℝ) ≠ 0 := ne_of_gt pi_pos
  rw [MeasureTheory.integral_mul_left]
  rw [integral_gauss3]
  have harg : π / (4 * π ^ 2 / b i k) = b i k / (4 * π) := by
    field_simp
    ring
  rw [harg]
  have key : Real.sqrt (4 * π / b i k) ^ 3 * Real.sqrt (b i k / (4 * π)) ^ 3 = 1 := by
    have h1 : (0 : ℝ) ≤ 4 * π / b i k := by
      apply div_nonneg _ (le_of_lt hbik)
      positivity
    have hprod : 4 * π / b i k * (b i k / (4 * π)) = 1 := by
      field_simp
    rw [← mul_pow, ← Real.sqrt_mul h1, hprod, Real.sqrt_one, one_pow]
  calc 4 * π * a i k * Real.sqrt (4 * π / b i k) ^ 3 * Real.sqrt (b i k / (4 * π)) ^ 3
      = a i k * (4 * π) *
          (Real.sqrt (4 * π / b i k) ^ 3 * Real.sqrt (b i k / (4 * π)) ^ 3) := by ring
    _ = a i k * (4 * π) := by rw [key, mul_one]

/-- Claim C8: the total integrated density built from atoms equals the sum
of all a-coefficients times `4π`, regardless of the b-coefficients — the
exact, width-independent conservation law that the voxel-grid Riemann sum
`Σ grid · voxel_size³` discretizes. -/
theorem build_density_total_integral (N : ℕ) (pos : Fin N → ℝ × ℝ × ℝ)
    (a b : Fin N → Fin 5 → ℝ) (hb : ∀ i k, 0 < b i k) :
    ∫ r : ℝ × ℝ × ℝ, atomDensity N pos a b r
      = (∑ i, ∑ k, a i k) * (4 * π) := by
  unfold atomDensity
  rw [MeasureTheory.integral_finset_sum _
    (fun i _ => integrable_finset_sum _
      (fun k _ => integrable_atom_term N pos a b hb i k))]
  calc ∑ i, ∫ r : ℝ × ℝ × ℝ, ∑ k,
          4 * π * a i k * Real.sqrt (4 * π / b i k) ^ 3 *
            Real.exp (-(4 * π ^ 2 / b i k) *
              ((r.1 - (pos i).1) ^ 2 + (r.2.1 - (pos i).2.1) ^ 2 +
                (r.2.2 - (pos i).2.2) ^ 2))
      = ∑ i, ∑ k, ∫ r : ℝ × ℝ × ℝ,
          4 * π * a i k * Real.sqrt (4 * π / b i k) ^ 3 *
            Real.exp (-(4 * π ^ 2 / b i k) *
              ((r.1 - (pos i).1) ^ 2 + (r.2.1 - (pos i).2.1) ^ 2 +
                (r.2.2 - (pos i).2.2) ^ 2)) :=
        Finset.sum_congr rfl (fun i _ =>
          MeasureTheory.integral_finset_sum _
            (fun k _ => integrable_atom_term N pos a b hb i k))
    _ = ∑ i, ∑ k, a i k * (4 * π) :=
        Finset.sum_congr rfl (fun i _ => Finset.sum_congr rfl (fun k _ =>
          integral_atom_term N pos a b hb i k))
    _ = (∑ i, ∑ k, a i k) * (4 * π) := by
        rw [Finset.sum_mul]
        exact Finset.sum_congr rfl (fun i _ => (Finset.sum_mul _ _ _).symm)

/-- Claim C8, witness: the conservation law instantiated on a single atom
at the origin with unit coefficients. -/
theorem build_density_total_integral_witness :
    (∀ i : Fin 1, ∀ k : Fin 5, (0 : ℝ) < 1) ∧
    ∫ r : ℝ × ℝ × ℝ,
        atomDensity 1 (fun _ => (0, 0, 0)) (fun _ _ => 1) (fun _ _ => 1) r
      = (∑ _i : Fin 1, ∑ _k : Fin 5, (1 : ℝ)) * (4 * π) :=
  ⟨fun _ _ => one_pos,
    build_density_total_integral 1 (fun _ => (0, 0, 0)) (fun _ _ => 1)
      (fun _ _ => 1) (fun _ _ => one_pos)⟩

/-! ## Batched (vmapped) scattering variants

Modelled from the spec: `jax.vmap` over a leading batch axis vectorizes
elementwise operations per batch element and executes every reduction in
lockstep across the batch (section 5); a lockstep reduction is the sum in
the space of batch vectors, accumulating all batch elements at each
summand. -/

open Real in
/-- Modelled from the spec: the vmapped non-uniform FFT — every point's
contribution is accumulated for all batch elements in lockstep
(section 5). -/
noncomputable def nufftBatched (B N : ℕ) (w : Fin B → Fin N → ℝ)
    (coords2 : Fin B → Fin N → ℚ × ℚ) (box2 : ℚ × ℚ) (shape : ℕ × ℕ) :
    ℕ → ℕ → Fin B → ℂ :=
  fun k1 k2 =>
    ∑ p, (fun b => (w b p : ℂ) *
      Complex.exp (-2 * (π : ℂ) * Complex.I *
        (((coords2 b p).1 / box2.1 : ℚ) * (centeredFreq shape.1 k1 : ℤ) +
         ((coords2 b p).2 / box2.2 : ℚ) * (centeredFreq shape.2 k2 : ℤ))))

/-- Modelled from the spec: the vmapped `project_with_nufft` — the bounds
mask is applied elementwise per batch element and the non-uniform FFT
reduction runs in lockstep. -/
noncomputable def project_with_nufft_batched (B N : ℕ)
    (density : Fin B → Fin N → ℝ) (coordinates : Fin B → Fin N → ℚ × ℚ × ℚ)
    (box_size : ℚ × ℚ × ℚ) (shape : ℕ × ℕ) : ℕ → ℕ → Fin B → ℂ :=
  nufftBatched B N
    (fun b => bound N (density b) (fun p => proj2 (coordinates b p)) (proj2 box_size))
    (fun b p => proj2 (coordinates b p)) (proj2 box_size) shape

/-- Modelled from the spec: the vmapped Gaussian pixel integration — the
sum over points runs in lockstep across the batch. -/
noncomputable def integrate_gaussians_batched (B N : ℕ) (w : Fin B → Fin N → ℝ)
    (coords2 : Fin B → Fin N → ℚ × ℚ) (scale : ℚ) (shape : ℕ × ℕ) (ps : ℚ) :
    ℕ → ℕ → Fin B → ℝ :=
  fun i j =>
    ∑ p, (fun b => w b p * pixelGaussIntegral shape.1 i ps (coords2 b p).1 scale *
      pixelGaussIntegral shape.2 j ps (coords2 b p).2 scale)

open Real in
/-- Modelled from the spec: the vmapped forward FFT of a batch of
real-space images — the double sum over pixels runs in lockstep. -/
noncomputable def fftBatched (B : ℕ) (shape : ℕ × ℕ)
    (img : ℕ → ℕ → Fin B → ℝ) : ℕ → ℕ → Fin B → ℂ :=
  fun k1 k2 =>
    ∑ i ∈ Finset.range shape.1, ∑ j ∈ Finset.range shape.2,
      (fun b => (img i j b : ℂ) *
        Complex.exp (-2 * (π : ℂ) * Complex.I *
          ((i : ℂ) * (k1 : ℂ) / (shape.1 : ℂ) + (j : ℂ) * (k2 : ℂ) / (shape.2 : ℂ))))

/-- Modelled from the spec: the vmapped `project_with_gaussians`. -/
noncomputable def project_with_gaussians_batched (B N : ℕ)
    (density : Fin B → Fin N → ℝ) (coordinates : Fin B → Fin N → ℚ × ℚ × ℚ)
    (box_size : ℚ × ℚ × ℚ) (shape : ℕ × ℕ) (pixel_size scale : ℚ) :
    ℕ → ℕ → Fin B → ℂ :=
  fftBatched B shape
    (integrate_gaussians_batched B N
      (fun b => bound N (density b) (fun p => proj2 (coordinates b p)) (proj2 box_size))
      (fun b p => proj2 (coordinates b p)) scale shape pixel_size)

/-- Modelled from the spec: the vmapped `FourierSliceScattering.scatter` —
the raise happens before the batch axis is ever consumed, so the batched
call fails with the same condition as every individual call. -/
def FourierSliceScattering.scatterBatched (s : FourierSliceScattering)
    (B N : ℕ) (density : Fin B → Fin N → ℂ)
    (coordinates : Fin B → Fin N → ℚ × ℚ × ℚ) :
    Except ScatterError (ℕ → ℕ → Fin B → ℂ) :=
  Except.error ScatterError.notImplemented

/-- Claim C9: running the Density Builder or any scattering variant
vectorized over a stacked batch produces, at every batch index `b`,
output identical — exactly, hence within `1e-12` — to the unbatched call
on input `b` alone: the lockstep builder equals the individual builder,
the lockstep NUFFT and Gaussian projections equal the individual
projections, and the batched Fourier-slice scatter fails with the same
`NotImplemented` condition as each individual call. -/
theorem batched_execution_matches_individual_calls (B : ℕ)
    (traj : List (Fin B → (ℝ × ℝ × ℝ) × (Fin 5 → ℝ) × (Fin 5 → ℝ)))
    (N : ℕ) (densityB : Fin B → Fin N → ℝ)
    (coordsB : Fin B → Fin N → ℚ × ℚ × ℚ) (densityC : Fin B → Fin N → ℂ)
    (box_size : ℚ × ℚ × ℚ) (shape : ℕ × ℕ) (pixel_size scale : ℚ)
    (s : FourierSliceScattering) (b : Fin B) (r : ℝ × ℝ × ℝ) (k1 k2 : ℕ) :
    buildDensityBatched B traj b r
        = buildDensityList (traj.map (fun bat => bat b)) r ∧
    project_with_nufft_batched B N densityB coordsB box_size shape k1 k2 b
        = project_with_nufft N (densityB b) (coordsB b) box_size shape k1 k2 ∧
    project_with_gaussians_batched B N densityB coordsB box_size shape
        pixel_size scale k1 k2 b
        = project_with_gaussians N (densityB b) (coordsB b) box_size shape
            pixel_size scale k1 k2 ∧
    (s.scatterBatched B N densityC coordsB
        = Except.error ScatterError.notImplemented ∧
      s.scatter N (densityC b) (coordsB b)
        = Except.error ScatterError.notImplemented) := by
  refine ⟨foldl_batched_eq B traj b r (fun _ _ => 0), ?_, ?_, rfl, rfl⟩
  · simp only [project_with_nufft_batched, nufftBatched, project_with_nufft,
      nufft, Finset.sum_apply]
  · simp only [project_with_gaussians_batched, fftBatched,
      integrate_gaussians_batched, project_with_gaussians, fft,
      integrate_gaussians, Finset.sum_apply]

/-! ## The discrete voxel-grid sum -/

/-- The quantity checked by `test_integral_is_correct`
(`test_voxels_from_atoms.py`, line 98): the sum of the built grid over
all voxels times `voxel_size ** 3`. -/
noncomputable def voxelGridIntegral (n N : ℕ) (pos : Fin N → ℝ × ℝ × ℝ)
    (a b : Fin N → Fin 5 → ℝ) (v : ℝ) : ℝ :=
  (∑ x : ZMod (n + 1), ∑ y : ZMod (n + 1), ∑ z : ZMod (n + 1),
      build_real_space_voxels_from_atoms n N pos a b v x y z) * v ^ 3

/-- Amplitude coefficients of the under-resolved counterexample: one atom
whose first Gaussian has unit amplitude. -/
noncomputable def aCex : Fin 1 → Fin 5 → ℝ := fun _ k => if k = 0 then 1 else 0

open Real in
/-- Width coefficients of the under-resolved counterexample: Gaussians of
width `16π`, far wider than a one-voxel grid of voxel size `1`. -/
noncomputable def bCex : Fin 1 → Fin 5 → ℝ := fun _ _ => 16 * π

/-- On the one-voxel grid every voxel of the built density has the value
`π / 2`. -/
lemma build_cex_value (x y z : ZMod 1) :
    build_real_space_voxels_from_atoms 0 1 (fun _ => (0, 0, 0)) aCex bCex 1 x y z
      = π / 2 := by
  have hπ : (π : ℝ) ≠ 0 := ne_of_gt pi_pos
  have hb4 : 4 * π / (16 * π) = (1 / 4 : ℝ) := by
    field_simp
    ring
  have hsq : Real.sqrt (4 * π / (16 * π)) = 1 / 2 := by
    rw [hb4, show (1 / 4 : ℝ) = (1 / 2) ^ 2 by norm_num,
      Real.sqrt_sq (by norm_num : (0 : ℝ) ≤ 1 / 2)]
  have hvx : (x.val : ℝ) = 0 := by rw [Nat.lt_one_iff.mp (ZMod.val_lt x)]; norm_num
  have hvy : (y.val : ℝ) = 0 := by rw [Nat.lt_one_iff.mp (ZMod.val_lt y)]; norm_num
  have hvz : (z.val : ℝ) = 0 := by rw [Nat.lt_one_iff.mp (ZMod.val_lt z)]; norm_num
  unfold build_real_space_voxels_from_atoms atomDensity gridCoord aCex bCex
  rw [Fin.sum_univ_one, Fin.sum_univ_five]
  rw [hvx, hvy, hvz, hsq]
  rw [if_pos rfl, if_neg (by decide), if_neg (by decide), if_neg (by decide),
    if_neg (by decide)]
  norm_num
  ring

/-- On the one-voxel grid the built density sums to `π / 2`. -/
lemma voxelGridIntegral_cex_value :
    voxelGridIntegral 0 1 (fun _ => (0, 0, 0)) aCex bCex 1 = π / 2 := by
  unfold voxelGridIntegral
  have h1 : (∑ x : ZMod (0 + 1), ∑ y : ZMod (0 + 1), ∑ z : ZMod (0 + 1),
        build_real_space_voxels_from_atoms 0 1 (fun _ => (0, 0, 0)) aCex bCex 1 x y z)
      = ∑ _x : ZMod (0 + 1), ∑ _y : ZMod (0 + 1), ∑ _z : ZMod (0 + 1), (π / 2 : ℝ) :=
    Finset.sum_congr rfl fun x _ => Finset.sum_congr rfl fun y _ =>
      Finset.sum_congr rfl fun z _ => build_cex_value x y z
  rw [h1]
  simp [Finset.sum_const, Finset.card_univ, ZMod.card]

/-- The summed amplitude coefficients of the counterexample equal `1`. -/
lemma aCex_sum : (∑ i, ∑ k, aCex i k) = 1 := by
  unfold aCex
  rw [Fin.sum_univ_one, Fin.sum_univ_five]
  rw [if_pos rfl, if_neg (by decide), if_neg (by decide), if_neg (by decide),
    if_neg (by decide)]
  norm_num

/-- Claim C8, counterexample: on the one-voxel grid of voxel size `1`
with a single unit-amplitude atom of width `16π`, the voxel-grid sum
times `voxel_size³` is `π / 2` while the claimed value is `4π` — they
differ by more than `10`, far beyond any floating-point tolerance, so the
conservation law fails as a statement about the discrete grid sum over
every grid and width. -/
theorem voxel_grid_sum_not_conserved :
    |voxelGridIntegral 0 1 (fun _ => (0, 0, 0)) aCex bCex 1
        - (∑ i, ∑ k, aCex i k) * (4 * π)| > 10 := by
  rw [voxelGridIntegral_cex_value, aCex_sum, one_mul]
  rw [abs_of_neg (by nlinarith [pi_pos])]
  nlinarith [pi_gt_three]
